import Mathlib

/-!
Verification development for the moderator-pings scheduling module
(`bot/exts/moderation/modpings.py`) and the message helpers
(`bot/utils/messages.py`).

Times (`datetime.datetime`, UTC-naive) are modelled as integer seconds;
`datetime.timedelta` values likewise (`timedelta(days=30)` = `30 * 86400`,
`timedelta(minutes=1)` = `60`, `timedelta(hours=16)` = `16 * 3600`).
The two `RedisCache` namespaces are modelled as association lists keyed by
the moderator id:
* `pings_off_mods` maps a mod id to the parsed off-until instant (the code
  stores `duration.isoformat()` and parses it back with `isoparse`);
* `modpings_schedule` maps a mod id to the pair (start timestamp,
  work seconds) (the code stores the composite string
  `f"{start.timestamp()}|{work_time}"`).
-/

namespace ModPings

/-- A Python object as it appears in the membership tests of modpings.py:
either an `int` (the id keys of the two `RedisCache` dicts) or a
`discord.Member` (reduced to its stable id). -/
inductive PyObj
  | pint (n : Nat)
  | pmember (id : Nat)
  deriving DecidableEq

/-- Python `==` on the objects above.  `discord.Member.__eq__` compares ids
against another user/member object and returns `NotImplemented` against an
`int` (and `int.__eq__` likewise against a `Member`), which Python turns
into `False`; so a `Member` never equals an `int`. -/
def pyEq : PyObj → PyObj → Bool
  | .pint a, .pint b => a == b
  | .pmember a, .pmember b => a == b
  | _, _ => false

/-- Python `x in xs` where `xs` is a list (or the key view of a dict):
true iff some element compares equal to `x`. -/
def pyMem (x : PyObj) (xs : List PyObj) : Bool := xs.any (pyEq x)

/-- `discord.Member`, reduced to the stable id the module keys everything by. -/
structure Member where
  id : Nat
  deriving DecidableEq

/-- The coroutine bound to a scheduler timer in modpings.py: either
`self.reapply_role(mod)` or `self.add_role_schedule(mod, work_time, start)`. -/
inductive TimerAction
  | reapplyRole (modId : Nat)
  | addRoleSchedule (modId : Nat) (workTime : Int) (scheduleStart : Int)
  deriving DecidableEq

/-- A pending timer of the `Scheduler`: key (the moderator id), fire time,
and the bound action. -/
structure Timer where
  key : Nat
  time : Int
  action : TimerAction
  deriving DecidableEq

/-- Modelled from the spec: `bot.utils.scheduling.Scheduler` is not under
src/.  Per the spec's Scheduler contract, `schedule_at(time, key, action)`
registers `action` to run at `time` under `key`; the pending set gains that
timer (callers must cancel first when replacing). -/
def schedule_at (timers : List Timer) (time : Int) (key : Nat)
    (action : TimerAction) : List Timer :=
  timers ++ [⟨key, time, action⟩]

/-- Modelled from the spec: `Scheduler.cancel(key)` removes the pending
timer(s) for `key` from the pending set. -/
def cancel (timers : List Timer) (key : Nat) : List Timer :=
  timers.filter (fun t => t.key != key)

/-- Modelled from the spec: the Scheduler's membership test
(`key in self._role_scheduler`). -/
def schedulerContains (timers : List Timer) (key : Nat) : Bool :=
  timers.any (fun t => t.key == key)

/-- The observable state the ModPings cog manipulates: the members holding
the moderators role (external platform state), the two RedisCache
namespaces, the Scheduler's pending timers, and the messages sent back to
the invoking context. -/
structure ModPingsState where
  roleHolders : List Nat
  pingsOffMods : List (Nat × Int)
  modpingsSchedule : List (Nat × (Int × Int))
  timers : List Timer
  sent : List String
  deriving DecidableEq

/-- `member.add_roles(self.moderators_role, ...)`: the member gains the role
(a no-op if already held). -/
def addRole (modId : Nat) (st : ModPingsState) : ModPingsState :=
  if st.roleHolders.contains modId then st
  else { st with roleHolders := modId :: st.roleHolders }

/-- `member.remove_roles(self.moderators_role, ...)`: the member loses the
role. -/
def removeRole (modId : Nat) (st : ModPingsState) : ModPingsState :=
  { st with roleHolders := st.roleHolders.filter (fun i => i != modId) }

/-- `RedisCache.set(key, value)`: overwrite-or-insert. -/
def storeSet {α : Type} (m : List (Nat × α)) (k : Nat) (v : α) :
    List (Nat × α) :=
  (k, v) :: m.filter (fun kv => kv.1 != k)

/-- `RedisCache.delete(key)`. -/
def storeDelete {α : Type} (m : List (Nat × α)) (k : Nat) : List (Nat × α) :=
  m.filter (fun kv => kv.1 != k)

/-- `MINIMUM_WORK_LIMIT = 16` (hours), modpings.py line 17. -/
def MINIMUM_WORK_LIMIT : Int := 16

/-- The rejection message of `off_command` (line 145). -/
def offRejection : String := ":x: Cannot remove the role for longer than 30 days."

/-- The confirmation embed of `off_command` (lines 160-162), reduced to its
footer text. -/
def offConfirmation : String := "Moderators role has been removed until"

/-- `on_command`'s early-return notice (line 170). -/
def onAlreadyNotice : String := ":question: You already have the role."

/-- `on_command`'s confirmation (line 180). -/
def onConfirmation : String := "Moderators role has been re-applied."

/-- The rejection message of `schedule_modpings` (line 191); the author
mention and the interpolated `MINIMUM_WORK_LIMIT` are inlined. -/
def scheduleRejection : String :=
  ":x: You need to have the role on for a minimum of 16 hours!"

/-- The confirmation message of `schedule_modpings` (lines 205-207). -/
def scheduleConfirmation : String := "Scheduled mod pings!"

/-- `reapply_role` (lines 111-114): re-add the moderators role. -/
def reapply_role (modId : Nat) (st : ModPingsState) : ModPingsState :=
  addRole modId st

/-- `off_command` (lines 124-162).  `duration` is the parsed absolute expiry
and `now` is `datetime.datetime.utcnow()`.  If `duration - now` exceeds 30
days the command is rejected; otherwise the role is removed, the off-until
entry written, any pending timer for the author cancelled, and a re-apply
timer armed at `duration`. -/
def off_command (modId : Nat) (duration now : Int) (st : ModPingsState) :
    ModPingsState :=
  let delta := duration - now
  if delta > 30 * 86400 then
    { st with sent := st.sent ++ [offRejection] }
  else
    let st1 := removeRole modId st
    let st2 := { st1 with pingsOffMods := storeSet st1.pingsOffMods modId duration }
    let timers1 :=
      if schedulerContains st2.timers modId then cancel st2.timers modId
      else st2.timers
    let timers2 := schedule_at timers1 duration modId (.reapplyRole modId)
    { st2 with timers := timers2, sent := st2.sent ++ [offConfirmation] }

/-- `on_command` (lines 166-180).  `mod in self.moderators_role.members`
compares the author against a list of members, i.e. by id.  If the role is
already present only a notice is sent; otherwise the role is re-added, the
off-until entry deleted, and the pending timer cancelled. -/
def on_command (modId : Nat) (st : ModPingsState) : ModPingsState :=
  if st.roleHolders.contains modId then
    { st with sent := st.sent ++ [onAlreadyNotice] }
  else
    let st1 := addRole modId st
    let st2 := { st1 with pingsOffMods := storeDelete st1.pingsOffMods modId }
    let st3 := { st2 with timers := cancel st2.timers modId }
    { st3 with sent := st3.sent ++ [onConfirmation] }

/-- `schedule_modpings` (lines 184-207).  `endT` stands for the parsed `end`
(a Lean keyword).  If `end < start` a day is added; windows shorter than
`MINIMUM_WORK_LIMIT` hours are rejected; otherwise
`work_time = (end - start).total_seconds()` is stored under the author's id
and the first `add_role_schedule` timer is armed at `start`. -/
def schedule_modpings (modId : Nat) (start endT : Int) (st : ModPingsState) :
    ModPingsState :=
  let endT2 := if endT < start then endT + 86400 else endT
  if endT2 - start < MINIMUM_WORK_LIMIT * 3600 then
    { st with sent := st.sent ++ [scheduleRejection] }
  else
    let workTime := endT2 - start
    let st1 := { st with modpingsSchedule := storeSet st.modpingsSchedule modId (start, workTime) }
    let st2 := { st1 with timers := schedule_at st1.timers start modId (.addRoleSchedule modId workTime start) }
    { st2 with sent := st2.sent ++ [scheduleConfirmation] }

/-- `remove_role_schedule` (lines 84-96): remove the role, then
`schedule_start += timedelta(minutes=1)` and re-arm `add_role_schedule` at
the new `schedule_start` (the previous start plus one minute), passing that
new start along. -/
def remove_role_schedule (modId : Nat) (workTime : Int) (scheduleStart : Int)
    (st : ModPingsState) : ModPingsState :=
  let st1 := removeRole modId st
  let newStart := scheduleStart + 60
  { st1 with timers := schedule_at st1.timers newStart modId (.addRoleSchedule modId workTime newStart) }

/-- The key view of the `pings_off_mods` dict: its keys are `int` mod ids. -/
def pingsOffKeyObjs (m : List (Nat × Int)) : List PyObj :=
  m.map (fun kv => PyObj.pint kv.1)

/-- First segment of `add_role_schedule` (lines 98-105), up to the
`await asyncio.sleep(work_time)` suspension: line 101 tests
`mod in await self.pings_off_mods.to_dict()`, i.e. the `Member` object
against the dict's `int` keys; when that holds the role add is skipped,
otherwise the role is applied. -/
def add_role_schedule_apply (modId : Nat) (st : ModPingsState) : ModPingsState :=
  if pyMem (.pmember modId) (pingsOffKeyObjs st.pingsOffMods) then st
  else addRole modId st

/-- `add_role_schedule` (lines 98-109) run to completion: the pre-sleep
segment, then (after `work_time` seconds of sleeping) the call to
`remove_role_schedule(mod, work_time, schedule_start)`. -/
def add_role_schedule (modId : Nat) (workTime scheduleStart : Int)
    (st : ModPingsState) : ModPingsState :=
  remove_role_schedule modId workTime scheduleStart (add_role_schedule_apply modId st)

/-- The body of the `reschedule_roles` loop (lines 54-65) for one mod-team
member.  `pingsOn` is the snapshot `self.moderators_role.members` (a list of
`Member`s, so `mod in pings_on` compares ids) and `pingsOff` the snapshot
`await self.pings_off_mods.to_dict()` (an `int`-keyed dict, so
`mod in pings_off` on line 56 compares the `Member` against `int` keys while
`mod.id not in pings_off` on line 61 compares `int` against `int`). -/
def reschedule_roles_step (pingsOn : List Member) (pingsOff : List (Nat × Int))
    (st : ModPingsState) (mod : Member) : ModPingsState :=
  if pyMem (.pmember mod.id) (pingsOn.map (fun m => PyObj.pmember m.id)) then
    if pyMem (.pmember mod.id) (pingsOffKeyObjs pingsOff) then
      { st with pingsOffMods := storeDelete st.pingsOffMods mod.id }
    else st
  else if !(pyMem (.pint mod.id) (pingsOffKeyObjs pingsOff)) then
    reapply_role mod.id st
  else
    match pingsOff.lookup mod.id with
    | some expiry =>
        { st with timers := schedule_at st.timers expiry mod.id (.reapplyRole mod.id) }
    | none => st

/-- `reschedule_roles` (lines 43-65): snapshot the role holders and the
off-until dict, then run the loop body over the mod-team members. -/
def reschedule_roles (modTeam : List Member) (st : ModPingsState) : ModPingsState :=
  let pingsOn : List Member := st.roleHolders.map Member.mk
  let pingsOff := st.pingsOffMods
  modTeam.foldl (reschedule_roles_step pingsOn pingsOff) st

/-- Line 73's `for mod_id, schedule in schedule_cache:` tuple-unpacks each
element produced by iterating the dict `schedule_cache`.  Iterating a Python
dict yields its keys — here `int` mod ids — and tuple-unpacking an `int`
raises `TypeError: cannot unpack non-iterable int object`. -/
def pyUnpackIntAsPair (k : Nat) : Except String (Nat × (Int × Int)) :=
  .error "TypeError: cannot unpack non-iterable int object"

/-- `reschedule_modpings_schedule` (lines 67-82): iterate the
`modpings_schedule` dict (which yields its keys), tuple-unpack each key, and
— were unpacking to succeed — arm an `add_role_schedule` timer at the stored
start.  The loop body past the unpacking is unreachable (it is modelled as
arming the intended timer; in the source it would raise further, e.g.
`datetime.datetime.fromtimestamp` on a `str`). -/
def reschedule_modpings_schedule (cache : List (Nat × (Int × Int)))
    (st : ModPingsState) : Except String ModPingsState :=
  (cache.map Prod.fst).foldlM
    (fun s k => do
      let (modId, sched) ← pyUnpackIntAsPair k
      pure { s with timers := schedule_at s.timers sched.1 modId (.addRoleSchedule modId sched.2 sched.1) })
    st

/-- An empty cog state, used to instantiate closed statements. -/
def st0 : ModPingsState :=
  { roleHolders := [], pingsOffMods := [], modpingsSchedule := [], timers := [], sent := [] }

end ModPings

namespace Messages

/-- The default of `wait_for_deletion`'s `timeout` parameter:
`timeout: float = 60 * 5` (messages.py line 66), in seconds. -/
def wait_for_deletion_default_timeout : Int := 60 * 5

/-- The outcome of `bot.instance.wait_for('reaction_add', check=check,
timeout=timeout)` (line 98): either a qualifying reaction arrived within
`timeout` seconds, or the wait raised `asyncio.TimeoutError`. -/
inductive WaitOutcome
  | reactionSeen
  | timeoutError
  deriving DecidableEq

/-- What `wait_for_deletion` did, as seen by its caller: whether
`message.delete()` ran, and the exception that propagated out, if any. -/
structure DeletionOutcome where
  deleted : Bool
  raised : Option String
  deriving DecidableEq

/-- `wait_for_deletion` (messages.py lines 62-99), with its awaits on the
platform made explicit parameters: `hasGuild` is whether `message.guild` is
set (line 78 raises `ValueError` otherwise); `addReactionNotFound` is
whether attaching a deletion emoji raised `discord.NotFound` (lines 81-87
then return early without deleting); `waitOutcome` is the result of the
bounded wait on line 98.  On `asyncio.TimeoutError` the
`contextlib.suppress` block (line 97) swallows the exception and
`message.delete()` on line 99 is skipped. -/
def wait_for_deletion (hasGuild : Bool) (attachEmojis : Bool)
    (addReactionNotFound : Bool) (waitOutcome : WaitOutcome) : DeletionOutcome :=
  if !hasGuild then
    { deleted := false, raised := some "ValueError: Message must be sent on a guild" }
  else if attachEmojis && addReactionNotFound then
    { deleted := false, raised := none }
  else
    match waitOutcome with
    | .reactionSeen => { deleted := true, raised := none }
    | .timeoutError => { deleted := false, raised := none }

/-- `'е'`, U+0435 CYRILLIC SMALL LETTER IE — the homoglyph `sub_clyde`
substitutes for a lower-case Latin `e`. -/
def cyrE : Char := 'е'

/-- `'Е'`, U+0415 CYRILLIC CAPITAL LETTER IE — substituted for `E`. -/
def cyrEUpper : Char := 'Е'

/-- Case-insensitive test against Latin `c` (what `re.I` makes of the
pattern character `c`). -/
def isc (a : Char) : Bool := a == 'c' || a == 'C'

/-- Case-insensitive test against Latin `l`. -/
def isl (a : Char) : Bool := a == 'l' || a == 'L'

/-- Case-insensitive test against Latin `y`. -/
def isy (a : Char) : Bool := a == 'y' || a == 'Y'

/-- Case-insensitive test against Latin `d`. -/
def isd (a : Char) : Bool := a == 'd' || a == 'D'

/-- Case-insensitive test against Latin `e` — the second capture group
`(e)` of the pattern `(clyd)(e)` under `re.I`. -/
def ise (a : Char) : Bool := a == 'e' || a == 'E'

/-- Whether a string starts with a case-insensitive match of the Latin
pattern `clyde` (i.e. whether `re.search` with `re.I` would match at this
position). -/
def clyde_head : List Char → Bool
  | a :: b :: c :: d :: e :: _ => isc a && isl b && isy c && isd d && ise e
  | _ => false

/-- `re.sub(r"(clyd)(e)", replace_e, username, flags=re.I)` (messages.py
line 179) specialised to this fixed five-character pattern: scan left to
right; at a match, keep the `(clyd)` group, replace the `(e)` group by the
Cyrillic homoglyph of its case (`replace_e`, lines 174-176), and resume
after the match (matches do not overlap); otherwise keep the character and
advance by one. -/
def subClydeList : List Char → List Char
  | a :: b :: c :: d :: e :: rest =>
    if isc a && isl b && isy c && isd d && ise e then
      a :: b :: c :: d :: (if e == 'e' then cyrE else cyrEUpper) :: subClydeList rest
    else
      a :: subClydeList (b :: c :: d :: e :: rest)
  | l => l

/-- `sub_clyde` (messages.py lines 167-181): `if username:` is false for
`None` and for the empty string, both returned unchanged; otherwise the
substitution runs. -/
def sub_clyde : Option (List Char) → Option (List Char)
  | none => none
  | some s => if s.isEmpty then some s else some (subClydeList s)

/-- Whether any position of the string starts a case-insensitive match of
Latin `clyde`. -/
def hasClyde : List Char → Bool
  | [] => false
  | a :: tail => clyde_head (a :: tail) || hasClyde tail

/-- The per-character relation between `sub_clyde`'s output and its input:
each output character is the input character, except that a Latin `e`/`E`
may have become its Cyrillic homoglyph. -/
def charRel (o i : Char) : Prop :=
  o = i ∨ (ise i = true ∧ (o = cyrE ∨ o = cyrEUpper))

end Messages

namespace ModPings

lemma contains_filter_ne (l : List Nat) (m : Nat) :
    (l.filter (fun i => i != m)).contains m = false := by
  simp [List.contains]

lemma lookup_storeDelete {α : Type} (m : List (Nat × α)) (k : Nat) :
    (storeDelete m k).lookup k = none := by
  unfold storeDelete
  induction m with
  | nil => rfl
  | cons kv rest ih =>
    by_cases h : kv.1 = k
    · simp [List.filter, h, ih]
    · simp only [List.filter]
      rw [show (kv.1 != k) = true by simp [h]]
      simp only [List.lookup]
      rw [show (k == kv.1) = false by simp [Ne.symm h]]
      exact ih

lemma lookup_storeSet {α : Type} (m : List (Nat × α)) (k : Nat) (v : α) :
    (storeSet m k v).lookup k = some v := by
  simp [storeSet, List.lookup]

lemma schedulerContains_cancel (timers : List Timer) (k : Nat) :
    schedulerContains (cancel timers k) k = false := by
  simp [schedulerContains, cancel, List.any_eq_true, List.mem_filter]

lemma addRole_contains (modId : Nat) (st : ModPingsState) :
    (addRole modId st).roleHolders.contains modId = true := by
  unfold addRole
  split
  · assumption
  · simp [List.contains]

/-- C3: a duration whose offset from the current time exceeds 30 days makes
`off` reject with a user-facing message while the off-until store, the
pending timer set and the role holders are all left unchanged. -/
theorem off_command_rejects_over_30_days (modId : Nat) (duration now : Int)
    (st : ModPingsState) (h : duration - now > 30 * 86400) :
    (off_command modId duration now st).pingsOffMods = st.pingsOffMods ∧
    (off_command modId duration now st).timers = st.timers ∧
    (off_command modId duration now st).roleHolders = st.roleHolders ∧
    (off_command modId duration now st).sent = st.sent ++ [offRejection] := by
  have h' : (2592000 : Int) < duration - now := by omega
  simp [off_command, h']

/-- Witness for C3 at `duration = 2592001`, `now = 0` (30 days plus one
second). -/
theorem off_command_rejects_over_30_days_witness :
    (2592001 : Int) - 0 > 30 * 86400 ∧
    (off_command 1 2592001 0 st0).pingsOffMods = st0.pingsOffMods :=
  ⟨by decide, (off_command_rejects_over_30_days 1 2592001 0 st0 (by decide)).1⟩

/-- C4: for an accepted duration, `off(duration)` immediately followed by
`on()` leaves no off-until entry for the moderator, no pending timer keyed
by them, and the moderator holding the role. -/
theorem off_then_on_restores (modId : Nat) (duration now : Int)
    (st : ModPingsState) (h : duration - now ≤ 30 * 86400) :
    (on_command modId (off_command modId duration now st)).pingsOffMods.lookup modId = none ∧
    schedulerContains (on_command modId (off_command modId duration now st)).timers modId = false ∧
    (on_command modId (off_command modId duration now st)).roleHolders.contains modId = true := by
  have hno : ¬((2592000 : Int) < duration - now) := by omega
  have hoff : off_command modId duration now st =
      { roleHolders := st.roleHolders.filter (fun i => i != modId),
        pingsOffMods := storeSet st.pingsOffMods modId duration,
        modpingsSchedule := st.modpingsSchedule,
        timers := schedule_at
          (if schedulerContains st.timers modId then cancel st.timers modId else st.timers)
          duration modId (.reapplyRole modId),
        sent := st.sent ++ [offConfirmation] } := by
    simp [off_command, hno, removeRole]
  rw [hoff]
  have hnr : (List.filter (fun i => i != modId) st.roleHolders).contains modId = false :=
    contains_filter_ne st.roleHolders modId
  unfold on_command
  rw [if_neg (by simp [hnr])]
  refine ⟨?_, ?_, ?_⟩
  · exact lookup_storeDelete _ modId
  · exact schedulerContains_cancel _ modId
  · exact addRole_contains modId _

/-- Witness for C4 at `duration = 1000`, `now = 0`, on the empty state. -/
theorem off_then_on_restores_witness :
    (1000 : Int) - 0 ≤ 30 * 86400 ∧
    (on_command 1 (off_command 1 1000 0 st0)).roleHolders.contains 1 = true :=
  ⟨by decide, (off_then_on_restores 1 1000 0 st0 (by decide)).2.2⟩

/-- C5: `schedule` adds a day to `end` when `end < start`; a resulting
window shorter than 16 hours is rejected with a user-facing message and
mutates neither the shift-schedule store nor the timer set; otherwise the
stored work seconds equal `end - start` (after the next-day adjustment) and
the first shift timer is armed at `start`. -/
theorem schedule_modpings_window (modId : Nat) (start endT : Int)
    (st : ModPingsState) :
    ((if endT < start then endT + 86400 else endT) - start < MINIMUM_WORK_LIMIT * 3600 →
      (schedule_modpings modId start endT st).modpingsSchedule = st.modpingsSchedule ∧
      (schedule_modpings modId start endT st).timers = st.timers ∧
      (schedule_modpings modId start endT st).sent = st.sent ++ [scheduleRejection]) ∧
    (MINIMUM_WORK_LIMIT * 3600 ≤ (if endT < start then endT + 86400 else endT) - start →
      (schedule_modpings modId start endT st).modpingsSchedule.lookup modId =
        some (start, (if endT < start then endT + 86400 else endT) - start) ∧
      (schedule_modpings modId start endT st).timers =
        schedule_at st.timers start modId
          (.addRoleSchedule modId ((if endT < start then endT + 86400 else endT) - start) start)) := by
  constructor
  · intro h
    simp [schedule_modpings, h]
  · intro h
    have hno : ¬((if endT < start then endT + 86400 else endT) - start < MINIMUM_WORK_LIMIT * 3600) :=
      not_lt.mpr h
    refine ⟨?_, ?_⟩
    · simp only [schedule_modpings, if_neg hno]
      exact lookup_storeSet _ modId _
    · simp [schedule_modpings, hno]

/-- Witness for C5: a 20-hour window `start = 0`, `end = 72000` stores
`work_seconds = 72000`, while `start = 79200` (22:00), `end = 7200` (02:00)
has `end < start`, is treated as next-day (window `93600 - 79200 = 14400`
seconds, i.e. 4 hours), and is therefore rejected without mutating the
store. -/
theorem schedule_modpings_window_witness :
    (schedule_modpings 1 0 72000 st0).modpingsSchedule.lookup 1 = some (0, 72000) ∧
    (schedule_modpings 2 79200 7200 st0).modpingsSchedule = st0.modpingsSchedule :=
  ⟨by
    have h := (schedule_modpings_window 1 0 72000 st0).2 (by decide)
    simpa using h.1,
   by
    have h := (schedule_modpings_window 2 79200 7200 st0).1 (by decide)
    exact h.1⟩

/-- C1: when a shift's removal fires, the role is removed, but the next
`add_role_schedule` timer is armed at the previous start plus one minute
(`schedule_start + 60`), not at `previous_start + work_duration + 1 minute`
as the spec states: with start `0` and work duration `72000` the re-arm time
is `60`, not `72060`. -/
theorem remove_role_schedule_rearm_time :
    (remove_role_schedule 7 72000 0 { st0 with roleHolders := [7] }).roleHolders = [] ∧
    (remove_role_schedule 7 72000 0 { st0 with roleHolders := [7] }).timers =
      [⟨7, 60, .addRoleSchedule 7 72000 60⟩] ∧
    (60 : Int) ≠ 0 + 72000 + 60 := by
  refine ⟨by decide, by decide, by decide⟩

/-- C2: startup reconciliation of the shift-schedule map fails with a
`TypeError` on any non-empty map, because line 73 iterates the dict (which
yields its `int` keys) and tuple-unpacks each key; no timer is armed. -/
theorem reschedule_modpings_schedule_type_error :
    reschedule_modpings_schedule [(123, (100, 72000))] st0 =
      .error "TypeError: cannot unpack non-iterable int object" := rfl

/-- C6: during startup reconciliation a moderator who holds the role and has
an off-until entry does **not** get the entry deleted — line 56's
`mod in pings_off` compares the `Member` object against the dict's `int`
keys and is always false — though indeed no timer is armed for them. -/
theorem reschedule_roles_keeps_stale_entry :
    (reschedule_roles [⟨1⟩] { st0 with roleHolders := [1], pingsOffMods := [(1, 500)] }).pingsOffMods
      = [(1, 500)] ∧
    (reschedule_roles [⟨1⟩] { st0 with roleHolders := [1], pingsOffMods := [(1, 500)] }).timers
      = [] := by
  refine ⟨by decide, by decide⟩

lemma pyMem_roleholders (id : Nat) (l : List Nat) :
    pyMem (.pmember id) ((l.map Member.mk).map (fun m => PyObj.pmember m.id)) =
      l.contains id := by
  induction l with
  | nil => rfl
  | cons x xs ih =>
    simp only [List.map_cons, pyMem, List.any_cons] at *
    rw [ih]
    cases hx : (id == x) <;> simp [pyEq, hx, List.contains, List.elem]

lemma pyMem_pint_lookup (m : List (Nat × Int)) (id : Nat) :
    pyMem (.pint id) (pingsOffKeyObjs m) = (m.lookup id).isSome := by
  induction m with
  | nil => rfl
  | cons kv rest ih =>
    simp only [pingsOffKeyObjs, List.map_cons, pyMem, List.any_cons] at *
    rw [ih]
    simp only [List.lookup]
    cases hx : (id == kv.1) <;> simp [pyEq, hx]

lemma contains_cons_of {x id : Nat} {l : List Nat} (h : l.contains id = true) :
    (x :: l).contains id = true := by
  simp only [List.contains] at *
  cases hx : (id == x) with
  | false =>
    simp only [List.elem, hx]
    exact h
  | true => simp [List.elem, hx]

lemma step_roleHolders_cases (pingsOn : List Member) (pingsOff : List (Nat × Int))
    (st : ModPingsState) (mod : Member) :
    (reschedule_roles_step pingsOn pingsOff st mod).roleHolders = st.roleHolders ∨
    (reschedule_roles_step pingsOn pingsOff st mod).roleHolders = mod.id :: st.roleHolders := by
  unfold reschedule_roles_step reapply_role addRole
  split
  · split
    · left; rfl
    · left; rfl
  · split
    · split
      · left; rfl
      · right; rfl
    · split
      · left; rfl
      · left; rfl

lemma step_roleHolders_mono (pingsOn : List Member) (pingsOff : List (Nat × Int))
    (st : ModPingsState) (mod : Member) (id : Nat)
    (h : st.roleHolders.contains id = true) :
    (reschedule_roles_step pingsOn pingsOff st mod).roleHolders.contains id = true := by
  rcases step_roleHolders_cases pingsOn pingsOff st mod with hc | hc <;> rw [hc]
  · exact h
  · exact contains_cons_of h

lemma fold_roleHolders_mono (pingsOn : List Member) (pingsOff : List (Nat × Int))
    (l : List Member) (st : ModPingsState) (id : Nat)
    (h : st.roleHolders.contains id = true) :
    (l.foldl (reschedule_roles_step pingsOn pingsOff) st).roleHolders.contains id = true := by
  induction l generalizing st with
  | nil => exact h
  | cons m rest ih =>
    rw [List.foldl_cons]
    exact ih _ (step_roleHolders_mono pingsOn pingsOff st m id h)

lemma step_timers_frame (pingsOn : List Member) (pingsOff : List (Nat × Int))
    (st : ModPingsState) (mod : Member) (id : Nat) (hne : mod.id ≠ id) :
    (reschedule_roles_step pingsOn pingsOff st mod).timers.filter (fun t => t.key == id) =
      st.timers.filter (fun t => t.key == id) := by
  have hbeq : (mod.id == id) = false := by simp [hne]
  unfold reschedule_roles_step reapply_role addRole schedule_at
  split
  · split
    · rfl
    · rfl
  · split
    · split
      · rfl
      · rfl
    · split
      · simp [List.filter_append, List.filter, hbeq]
      · rfl

lemma fold_timers_frame (pingsOn : List Member) (pingsOff : List (Nat × Int))
    (l : List Member) (st : ModPingsState) (id : Nat)
    (h : ∀ m ∈ l, m.id ≠ id) :
    (l.foldl (reschedule_roles_step pingsOn pingsOff) st).timers.filter (fun t => t.key == id) =
      st.timers.filter (fun t => t.key == id) := by
  induction l generalizing st with
  | nil => rfl
  | cons m rest ih =>
    rw [List.foldl_cons]
    rw [ih _ (fun m' hm' => h m' (List.mem_cons_of_mem m hm'))]
    exact step_timers_frame pingsOn pingsOff st m id (h m (List.mem_cons_self m rest))

/-- The inductive core of the C7 theorem: running the reconciliation loop
body over a member list containing `mod` (ids distinct), starting from a
state whose timer set holds no timer keyed by `mod.id`, where the role
snapshot does not list `mod`. -/
lemma reschedule_fold_offrole (pingsOn : List Member) (pingsOff : List (Nat × Int))
    (mod : Member)
    (hon : pyMem (.pmember mod.id) (pingsOn.map (fun m => PyObj.pmember m.id)) = false) :
    ∀ (l : List Member) (st : ModPingsState),
    mod ∈ l → (l.map Member.id).Nodup →
    st.timers.filter (fun t => t.key == mod.id) = [] →
    (pingsOff.lookup mod.id = none →
      (l.foldl (reschedule_roles_step pingsOn pingsOff) st).roleHolders.contains mod.id = true) ∧
    (∀ e, pingsOff.lookup mod.id = some e →
      (l.foldl (reschedule_roles_step pingsOn pingsOff) st).timers.filter
          (fun t => t.key == mod.id) =
        [⟨mod.id, e, .reapplyRole mod.id⟩]) := by
  intro l
  induction l with
  | nil => intro st hmem _ _; exact absurd hmem (List.not_mem_nil mod)
  | cons m rest ih =>
    intro st hmem hnodup hfilter
    rw [List.map_cons, List.nodup_cons] at hnodup
    obtain ⟨hmid_notin, hnodup_rest⟩ := hnodup
    rw [List.foldl_cons]
    by_cases hid : m.id = mod.id
    · -- `m` is the loop iteration acting on `mod`'s id
      have hrest_ne : ∀ m' ∈ rest, m'.id ≠ mod.id := by
        intro m' hm' heq
        exact hmid_notin (hid ▸ heq ▸ List.mem_map_of_mem Member.id hm')
      constructor
      · intro hlk
        have hpy : pyMem (.pint mod.id) (pingsOffKeyObjs pingsOff) = false := by
          rw [pyMem_pint_lookup, hlk]; rfl
        have hstep : reschedule_roles_step pingsOn pingsOff st m = addRole mod.id st := by
          unfold reschedule_roles_step reapply_role
          rw [hid, hon, hpy]
          simp
        rw [hstep]
        exact fold_roleHolders_mono pingsOn pingsOff rest _ mod.id
          (addRole_contains mod.id st)
      · intro e hlk
        have hpy : pyMem (.pint mod.id) (pingsOffKeyObjs pingsOff) = true := by
          rw [pyMem_pint_lookup, hlk]; rfl
        have hstep : reschedule_roles_step pingsOn pingsOff st m =
            { st with timers := schedule_at st.timers e mod.id (.reapplyRole mod.id) } := by
          unfold reschedule_roles_step
          rw [hid, hon, hpy, hlk]
          simp
        rw [hstep]
        rw [fold_timers_frame pingsOn pingsOff rest _ mod.id hrest_ne]
        simp only [schedule_at, List.filter_append, hfilter]
        simp [List.filter]
    · -- `m` is a different moderator; `mod` is handled inside `rest`
      have hmem_rest : mod ∈ rest := by
        rcases List.mem_cons.mp hmem with heq | h
        · subst heq; exact absurd rfl hid
        · exact h
      have hfilter' : (reschedule_roles_step pingsOn pingsOff st m).timers.filter
          (fun t => t.key == mod.id) = [] := by
        rw [step_timers_frame pingsOn pingsOff st m mod.id hid, hfilter]
      exact ih _ hmem_rest hnodup_rest hfilter'

/-- C7: during startup reconciliation, a mod-team member who lacks the role
gets it re-applied immediately when they have no off-until entry, and
otherwise exactly one Scheduler timer keyed by their id is armed at the
stored expiry, bound to the role re-application action. -/
theorem reschedule_roles_lacking_role (modTeam : List Member) (st : ModPingsState)
    (mod : Member)
    (hmem : mod ∈ modTeam)
    (hnodup : (modTeam.map Member.id).Nodup)
    (hrole : st.roleHolders.contains mod.id = false)
    (htimers : st.timers = []) :
    (st.pingsOffMods.lookup mod.id = none →
      (reschedule_roles modTeam st).roleHolders.contains mod.id = true) ∧
    (∀ e, st.pingsOffMods.lookup mod.id = some e →
      (reschedule_roles modTeam st).timers.filter (fun t => t.key == mod.id) =
        [⟨mod.id, e, .reapplyRole mod.id⟩]) := by
  have hon : pyMem (.pmember mod.id)
      ((st.roleHolders.map Member.mk).map (fun m => PyObj.pmember m.id)) = false := by
    rw [pyMem_roleholders, hrole]
  have hfilter : st.timers.filter (fun t => t.key == mod.id) = [] := by
    rw [htimers]; rfl
  exact reschedule_fold_offrole (st.roleHolders.map Member.mk) st.pingsOffMods mod hon
    modTeam st hmem hnodup hfilter

/-- Witness for C7: a two-member team where member 1 lacks the role with no
off-until entry (role re-applied) and member 2 lacks it with an entry at
`800` (timer armed at `800`). -/
theorem reschedule_roles_lacking_role_witness :
    ((⟨1⟩ : Member) ∈ ([⟨1⟩, ⟨2⟩] : List Member)) ∧
    (reschedule_roles [⟨1⟩, ⟨2⟩]
        { st0 with pingsOffMods := [(2, 800)] }).roleHolders.contains 1 = true := by
  refine ⟨by decide, ?_⟩
  exact (reschedule_roles_lacking_role [⟨1⟩, ⟨2⟩] { st0 with pingsOffMods := [(2, 800)] }
    ⟨1⟩ (by decide) (by decide) (by decide) (by decide)).1 (by decide)

/-- C8: when a shift's start fires for a moderator with an active off-until
entry, the role is applied anyway — line 101's membership test compares the
`Member` against the dict's `int` keys and is always false — and it is also
applied when no entry exists (the part of the claim that holds). -/
theorem add_role_schedule_applies_despite_pings_off :
    (add_role_schedule_apply 5 { st0 with pingsOffMods := [(5, 999)] }).roleHolders = [5] ∧
    (add_role_schedule_apply 6 st0).roleHolders = [6] := by
  refine ⟨by decide, by decide⟩

end ModPings

namespace Messages

/-- C9: the reaction-wait helper's default timeout is 5 minutes, and when
the bounded wait times out the message is not deleted and no exception
propagates to the caller. -/
theorem wait_for_deletion_timeout_no_delete :
    wait_for_deletion_default_timeout = 300 ∧
    ∀ (attachEmojis addReactionNotFound : Bool),
      wait_for_deletion true attachEmojis addReactionNotFound .timeoutError =
        { deleted := false, raised := none } := by
  refine ⟨by decide, ?_⟩
  intro a n
  cases a <;> cases n <;> rfl

end Messages

namespace Messages

lemma subClyde_forall₂ (l : List Char) : List.Forall₂ charRel (subClydeList l) l := by
  induction l using subClydeList.induct with
  | case1 a b c d e rest hg ih =>
    rw [subClydeList, if_pos hg]
    have he : ise e = true := by
      simp only [Bool.and_eq_true] at hg
      exact hg.2
    refine .cons (Or.inl rfl) (.cons (Or.inl rfl) (.cons (Or.inl rfl)
      (.cons (Or.inl rfl) (.cons ?_ ih))))
    exact Or.inr ⟨he, by split <;> [exact Or.inl rfl; exact Or.inr rfl]⟩
  | case2 a b c d e rest hg ih =>
    rw [subClydeList, if_neg hg]
    exact .cons (Or.inl rfl) ih
  | case3 l hshape =>
    have heq : subClydeList l = l := by
      match l, hshape with
      | [], _ => rfl
      | [a], _ => rfl
      | [a, b], _ => rfl
      | [a, b, c], _ => rfl
      | [a, b, c, d], _ => rfl
      | a :: b :: c :: d :: e :: rest, h => exact absurd rfl (h a b c d e rest)
    rw [heq]
    exact List.forall₂_same.mpr (fun x _ => Or.inl rfl)

lemma isc_of_rel {x y : Char} (r : charRel x y) (h : isc x = true) : isc y = true := by
  rcases r with rfl | ⟨_, rfl | rfl⟩
  · exact h
  · exact absurd h (by decide)
  · exact absurd h (by decide)

lemma isl_of_rel {x y : Char} (r : charRel x y) (h : isl x = true) : isl y = true := by
  rcases r with rfl | ⟨_, rfl | rfl⟩
  · exact h
  · exact absurd h (by decide)
  · exact absurd h (by decide)

lemma isy_of_rel {x y : Char} (r : charRel x y) (h : isy x = true) : isy y = true := by
  rcases r with rfl | ⟨_, rfl | rfl⟩
  · exact h
  · exact absurd h (by decide)
  · exact absurd h (by decide)

lemma isd_of_rel {x y : Char} (r : charRel x y) (h : isd x = true) : isd y = true := by
  rcases r with rfl | ⟨_, rfl | rfl⟩
  · exact h
  · exact absurd h (by decide)
  · exact absurd h (by decide)

lemma ise_of_rel {x y : Char} (r : charRel x y) (h : ise x = true) : ise y = true := by
  rcases r with rfl | ⟨_, rfl | rfl⟩
  · exact h
  · exact absurd h (by decide)
  · exact absurd h (by decide)

lemma clyde_head_of_rel : ∀ {out inp : List Char},
    List.Forall₂ charRel out inp → clyde_head out = true → clyde_head inp = true := by
  intro out inp H h
  match out, h with
  | x1 :: x2 :: x3 :: x4 :: x5 :: t, h =>
    rcases H with _ | ⟨r1, H⟩
    rcases H with _ | ⟨r2, H⟩
    rcases H with _ | ⟨r3, H⟩
    rcases H with _ | ⟨r4, H⟩
    rcases H with _ | ⟨r5, H⟩
    simp only [clyde_head, Bool.and_eq_true] at h ⊢
    exact ⟨⟨⟨⟨isc_of_rel r1 h.1.1.1.1, isl_of_rel r2 h.1.1.1.2⟩,
      isy_of_rel r3 h.1.1.2⟩, isd_of_rel r4 h.1.2⟩, ise_of_rel r5 h.2⟩

lemma clyde_head_false_head {x : Char} (t : List Char) (h : isc x = false) :
    clyde_head (x :: t) = false := by
  rcases t with _ | ⟨b, _ | ⟨c, _ | ⟨d, _ | ⟨e, rest⟩⟩⟩⟩ <;> simp [clyde_head, h]

lemma hasClyde_cons (a : Char) (t : List Char) :
    hasClyde (a :: t) = (clyde_head (a :: t) || hasClyde t) := rfl

lemma beq_char {x y : Char} (h : (x == y) = true) : x = y := eq_of_beq h

lemma isl_isc {x : Char} (h : isl x = true) : isc x = false := by
  rcases Bool.or_eq_true_iff.mp h with h2 | h2 <;> rw [beq_char h2] <;> decide

lemma isy_isc {x : Char} (h : isy x = true) : isc x = false := by
  rcases Bool.or_eq_true_iff.mp h with h2 | h2 <;> rw [beq_char h2] <;> decide

lemma isd_isc {x : Char} (h : isd x = true) : isc x = false := by
  rcases Bool.or_eq_true_iff.mp h with h2 | h2 <;> rw [beq_char h2] <;> decide

lemma hasClyde_subClyde (l : List Char) : hasClyde (subClydeList l) = false := by
  induction l using subClydeList.induct with
  | case1 a b c d e rest hg ih =>
    rw [subClydeList, if_pos hg]
    obtain ⟨⟨⟨⟨hc, hl⟩, hy⟩, hd⟩, he⟩ := by
      simpa only [Bool.and_eq_true] using hg
    set cyr := if e == 'e' then cyrE else cyrEUpper with hcyr
    have hcyrc : isc cyr = false := by rw [hcyr]; split <;> decide
    have hcyre : ise cyr = false := by rw [hcyr]; split <;> decide
    rw [hasClyde_cons, hasClyde_cons, hasClyde_cons, hasClyde_cons, hasClyde_cons]
    rw [ih]
    rw [clyde_head_false_head _ (isl_isc hl)]
    rw [clyde_head_false_head _ (isy_isc hy)]
    rw [clyde_head_false_head _ (isd_isc hd)]
    rw [clyde_head_false_head _ hcyrc]
    simp [clyde_head, hcyre]
  | case2 a b c d e rest hg ih =>
    rw [subClydeList, if_neg hg]
    rw [hasClyde_cons, ih]
    have hfull : clyde_head (a :: b :: c :: d :: e :: rest) = false := by
      simp only [clyde_head]
      exact Bool.of_not_eq_true hg
    have hrel : List.Forall₂ charRel
        (a :: subClydeList (b :: c :: d :: e :: rest)) (a :: b :: c :: d :: e :: rest) := by
      have h2 := subClyde_forall₂ (a :: b :: c :: d :: e :: rest)
      rwa [subClydeList, if_neg hg] at h2
    cases hout : clyde_head (a :: subClydeList (b :: c :: d :: e :: rest)) with
    | false => simp
    | true =>
      rw [clyde_head_of_rel hrel hout] at hfull
      exact absurd hfull (by simp)
  | case3 l hshape =>
    have heq : subClydeList l = l := by
      match l, hshape with
      | [], _ => rfl
      | [a], _ => rfl
      | [a, b], _ => rfl
      | [a, b, c], _ => rfl
      | [a, b, c, d], _ => rfl
      | a :: b :: c :: d :: e :: rest, h => exact absurd rfl (h a b c d e rest)
    rw [heq]
    match l, hshape with
    | [], _ => rfl
    | [a], _ => simp [hasClyde, clyde_head]
    | [a, b], _ => simp [hasClyde, clyde_head]
    | [a, b, c], _ => simp [hasClyde, clyde_head]
    | [a, b, c, d], _ => simp [hasClyde, clyde_head]
    | a :: b :: c :: d :: e :: rest, h => exact absurd rfl (h a b c d e rest)

/-- C10: `sub_clyde` returns `None` exactly on `None`; on a non-empty
string the result is the substitution, which keeps the input's length,
changes characters only by replacing a Latin `e`/`E` with its Cyrillic
homoglyph (the `Forall₂ charRel` conjunct), and contains no case-insensitive
occurrence of the Latin substring `clyde`. -/
theorem sub_clyde_spec :
    (∀ u, sub_clyde u = none ↔ u = none) ∧
    (∀ s : List Char, s ≠ [] →
      sub_clyde (some s) = some (subClydeList s) ∧
      (subClydeList s).length = s.length ∧
      List.Forall₂ charRel (subClydeList s) s ∧
      hasClyde (subClydeList s) = false) := by
  constructor
  · intro u
    cases u with
    | none => simp [sub_clyde]
    | some s =>
      simp only [sub_clyde]
      split <;> simp
  · intro s hs
    have hne : s.isEmpty = false := by
      cases s with
      | nil => exact absurd rfl hs
      | cons a t => rfl
    exact ⟨by simp [sub_clyde, hne], (subClyde_forall₂ s).length_eq,
      subClyde_forall₂ s, hasClyde_subClyde s⟩

/-- Witness for C10 at the input `"Clyde"`. -/
theorem sub_clyde_spec_witness :
    (['C', 'l', 'y', 'd', 'e'] : List Char) ≠ [] ∧
    hasClyde (subClydeList ['C', 'l', 'y', 'd', 'e']) = false :=
  ⟨by decide, (sub_clyde_spec.2 ['C', 'l', 'y', 'd', 'e'] (by decide)).2.2.2⟩

end Messages
